import Mathlib

/-!
Verification development for the `papis.downloaders.base` module: a shallow
embedding of its metadata extractors (`parse_meta_headers`,
`parse_meta_authors`) and of the `Downloader` class (`fetch`,
`download_bibtex`, `get_bibtex_data`, `download_document`,
`get_document_data`, `check_document_format`), together with theorems
settling the specification claims about them.

Conventions of the embedding:
* Python `dict`s are insertion-ordered association lists with unique keys;
  `dict[k] = v` replaces in place or appends (`dictInsert`), `d1.update(d2)`
  folds `dictInsert` over `d2` (`dictUpdate`), `d.get(k)` is `dlookup`.
* A raised exception that a modelled function can produce is `Option.none`
  in its result; `NotImplementedError` from an optional capability is the
  capability field being `none`.
* Bytes are `List Nat`; external collaborators (the HTTP session, utf-8
  decoding, `papis.bibtex.bibtex_to_dict`, `filetype.guess`,
  `papis.document.author_list_to_author`) are function-valued parameters.
-/

namespace Papis

/-! ## Python dictionaries as insertion-ordered association lists -/

/-- Python `d.get(k)`: the value stored for key `k`, `None` when absent. -/
def dlookup {β : Type} (k : String) : List (String × β) → Option β
  | [] => none
  | (k1, v) :: t => if k1 = k then some v else dlookup k t

/-- Python `d[k] = v`: replace the entry with key `k` in place, or append. -/
def dictInsert {β : Type} (d : List (String × β)) (k : String) (v : β) :
    List (String × β) :=
  match d with
  | [] => [(k, v)]
  | (k1, v1) :: t => if k1 = k then (k, v) :: t else (k1, v1) :: dictInsert t k v

/-- Python `d1.update(d2)`: insert every entry of `d2` into `d1`, in order. -/
def dictUpdate {β : Type} (d1 d2 : List (String × β)) : List (String × β) :=
  d2.foldl (fun d p => dictInsert d p.1 p.2) d1

/-! ## HTML `<meta>` elements as seen through BeautifulSoup -/

/-- A parsed HTML element: its tag name and its attribute dictionary
(`meta.attrs`). -/
structure Element where
  tag : String
  attrs : List (String × String)
  deriving DecidableEq, Repr

/-- Python `element.attrs.get(key)` / `element.get(key)`. -/
def getAttr (e : Element) (k : String) : Option String :=
  dlookup k e.attrs

/-- Truthiness of an optional string: `None` and `""` are falsy. -/
def truthyOS : Option String → Bool
  | none => false
  | some s => !s.isEmpty

/-- The identifier of a meta element:
`meta.attrs.get('name') or meta.attrs.get('property')`. -/
def metaName (e : Element) : Option String :=
  if truthyOS (getAttr e "name") then getAttr e "name" else getAttr e "property"

/-! ## Splitting a full name on runs of whitespace -/

/-- The characters matched by the regular expression `\s` (the Latin-1
portion of Python's whitespace class). -/
def isSpace (c : Char) : Bool :=
  c = ' ' || c = '\t' || c = '\n' || c = '\r' || c = '\x0b' || c = '\x0c' ||
  c = '\x1c' || c = '\x1d' || c = '\x1e' || c = '\x1f' || c = '\x85' || c = '\xa0'

/-- Worker for `reSplitWs`. `acc` holds the current token reversed; `inRun`
records whether the previous character was whitespace (so that a run of
whitespace produces a single split point). -/
def splitWsAux : List Char → Bool → List Char → List String
  | acc, _, [] => [String.mk acc.reverse]
  | acc, inRun, c :: cs =>
    if isSpace c then
      if inRun then splitWsAux acc true cs
      else String.mk acc.reverse :: splitWsAux [] true cs
    else splitWsAux (c :: acc) false cs

/-- Python `re.split('\\s+', s)`: split `s` at every maximal run of
whitespace; a leading (trailing) run contributes a leading (trailing) empty
string. -/
def reSplitWs (s : String) : List String :=
  splitWsAux [] false s.toList

/-! ## The author list extractor: `parse_meta_authors` -/

/-- An affiliation record `dict(name=...)`; the `content` attribute of the
institution element may be absent (`None`). -/
structure AffRec where
  name : Option String
  deriving DecidableEq, Repr

/-- An author record as built by `parse_meta_authors`'s loop body. -/
structure Author where
  given : String
  family : String
  affiliation : List AffRec
  deriving DecidableEq, Repr

/-- The body of the `for t in tuples` loop of `parse_meta_authors`: split
the full name on runs of whitespace, take the first piece as the given
name, join the remaining pieces by single spaces as the family name, and
attach the paired institution's `content` (if an institution was paired). -/
def author_record (fullname : String) (aff : Option Element) : Author :=
  { given := (reSplitWs fullname).headD ""
    family := " ".intercalate (reSplitWs fullname).tail
    affiliation :=
      match aff with
      | some a => [{ name := getAttr a "content" }]
      | none => [] }

/-- `soup.find_all(name='meta', attrs={'name': 'citation_author'})`. -/
def authorsOf (soup : List Element) : List Element :=
  soup.filter fun e =>
    decide (e.tag = "meta" ∧ getAttr e "name" = some "citation_author")

/-- `soup.find_all(name='meta', attrs={'name': 'citation_author_institution'})`. -/
def affsOf (soup : List Element) : List Element :=
  soup.filter fun e =>
    decide (e.tag = "meta" ∧ getAttr e "name" = some "citation_author_institution")

/-- The `for t in tuples` loop: `none` models the `TypeError` raised by
`re.split` when an author element has no `content` attribute. -/
def build_author_list : List (Element × Option Element) → Option (List Author)
  | [] => some []
  | t :: ts =>
    match getAttr t.1 "content" with
    | none => none
    | some fullname =>
      (build_author_list ts).map fun l => author_record fullname t.2 :: l

/-- Shallow embedding of `parse_meta_authors(soup)`: find the author and
institution meta elements; if both lists are non-empty pair them with
`zip` (truncating to the shorter), if only authors exist pair each with no
institution, otherwise return the empty list. -/
def parse_meta_authors (soup : List Element) : Option (List Author) :=
  let authors := authorsOf soup
  let affs := affsOf soup
  let tuples : List (Element × Option Element) :=
    if ¬affs.isEmpty ∧ ¬authors.isEmpty then
      authors.zip (affs.map some)
    else if ¬authors.isEmpty then
      authors.map fun a => (a, none)
    else
      []
  build_author_list tuples

/-! ## The header extractor: `parse_meta_headers` -/

/-- A value stored in the output mapping of `parse_meta_headers`: a meta
element's `content` string, Python `None` (a matched element without a
`content` attribute), or the author list / formatted author string. -/
inductive MVal where
  | vstr : String → MVal
  | vnone : MVal
  | valist : List Author → MVal
  deriving DecidableEq, Repr

/-- Wrap an optional attribute value as the stored dictionary value. -/
def ostrToMVal : Option String → MVal
  | some s => MVal.vstr s
  | none => MVal.vnone

/-- The module-level built-in equivalence table `meta_equivalences`. -/
def meta_equivalences : List (String × String) :=
  [("og:type", "type"),
   ("og:title", "title"),
   ("og:url", "url"),
   ("description", "abstract"),
   ("citation_doi", "doi"),
   ("citation_firstpage", "firstpage"),
   ("citation_lastpage", "lastpage"),
   ("citation_fulltext_html_url", "url"),
   ("citation_pdf_url", "pdf_url"),
   ("citation_issn", "issn"),
   ("citation_issue", "issue"),
   ("citation_journal_abbrev", "journal_abbrev"),
   ("citation_journal_title", "journal"),
   ("citation_language", "language"),
   ("citation_online_date", "online_date"),
   ("citation_publication_date", "publication_date"),
   ("citation_publisher", "publisher"),
   ("citation_title", "title"),
   ("citation_volume", "volume"),
   ("dc.publisher", "publisher"),
   ("dc.date", "date"),
   ("dc.language", "language"),
   ("dc.subject", "subject"),
   ("dc.title", "title"),
   ("keywords", "keywords"),
   ("dc.type", "type"),
   ("dc.description", "description")]

/-- Python `s.lower()`, character by character. -/
def pyLower (s : String) : String :=
  String.mk (s.data.map Char.toLower)

/-- The `for meta in metas` loop body of `parse_meta_headers`: if the
element's identifier is truthy and its lowercasing is in the effective
equivalence table, store the element's `content` attribute under the mapped
field name. -/
def headerStep (equivalences : List (String × String))
    (data : List (String × MVal)) (meta : Element) : List (String × MVal) :=
  match metaName meta with
  | none => data
  | some nm =>
    if nm.isEmpty then data
    else
      match dlookup (pyLower nm) equivalences with
      | none => data
      | some field => dictInsert data field (ostrToMVal (getAttr meta "content"))

/-- The first half of `parse_meta_headers`: build the effective equivalence
table (built-ins overlaid with the extras), find all `<meta>` elements, and
run the header loop over them. -/
def headers_data (soup : List Element) (extra : List (String × String)) :
    List (String × MVal) :=
  (soup.filter fun e => decide (e.tag = "meta")).foldl
    (headerStep (dictUpdate meta_equivalences extra)) []

/-- Shallow embedding of `parse_meta_headers(soup, extra_equivalences)`.
The external collaborator `papis.document.author_list_to_author` is the
parameter `fmt`. `none` models the exception propagated out of
`parse_meta_authors`. -/
def parse_meta_headers (fmt : List Author → String) (soup : List Element)
    (extra : List (String × String)) : Option (List (String × MVal)) :=
  let data := headers_data soup extra
  match parse_meta_authors soup with
  | none => none
  | some [] => some data
  | some al =>
    let data1 := dictInsert data "author_list" (MVal.valist al)
    some (dictInsert data1 "author" (MVal.vstr (fmt al)))

/-! ## A small heap of dictionaries, for the aliasing behaviour of
`equivalences = copy.copy(meta_equivalences); equivalences.update(...)` -/

/-- A heap of string dictionaries; addresses are indices into `cells`. -/
structure Heap where
  cells : List (List (String × String))
  deriving DecidableEq, Repr

/-- Read the dictionary stored at address `a`. -/
def hget (h : Heap) (a : Nat) : List (String × String) :=
  (h.cells.get? a).getD []

/-- Overwrite the dictionary stored at address `a` in place. -/
def hset (h : Heap) (a : Nat) (d : List (String × String)) : Heap :=
  { cells := h.cells.set a d }

/-- Allocate a fresh cell holding `d` and return its address. -/
def halloc (h : Heap) (d : List (String × String)) : Heap × Nat :=
  ({ cells := h.cells ++ [d] }, h.cells.length)

/-- Python `copy.copy(d)` on the dictionary at address `a`: allocate a fresh
cell holding the same entries. -/
def dictCopy (h : Heap) (a : Nat) : Heap × Nat :=
  halloc h (hget h a)

/-- Python `d.update(d2)` on the dictionary at address `a`: mutate that cell
in place. -/
def dictUpdateAt (h : Heap) (a : Nat) (d2 : List (String × String)) : Heap :=
  hset h a (dictUpdate (hget h a) d2)

/-- Heap-level embedding of the first two statements of
`parse_meta_headers` (`equivalences = copy.copy(meta_equivalences)` followed
by `equivalences.update(extra_equivalences)`), with `aGlobal` the address of
the module-level `meta_equivalences` dictionary. Returns the heap after both
statements and the address of the local `equivalences` dictionary. -/
def parse_meta_headers_table (h : Heap) (aGlobal : Nat)
    (extra : List (String × String)) : Heap × Nat :=
  let copied := dictCopy h aGlobal
  let h1 := dictUpdateAt copied.1 copied.2 extra
  (h1, copied.2)

/-! ## The `Downloader` class and `fetch` -/

/-- The mutable result context shared with the caller: `ctx.data` and
`ctx.files`. -/
structure Ctx where
  data : List (String × String)
  files : List String
  deriving DecidableEq, Repr

/-- The result of `filetype.guess`: a kind with an extension and a mime
type. -/
structure FType where
  extension : String
  mime : String
  deriving DecidableEq, Repr

/-- The configured `expected_document_extension` when not `None`: either a
single tag (a Python `str`) or a Python `list` of tags. -/
inductive ExpectedExt where
  | one : String → ExpectedExt
  | many : List String → ExpectedExt
  deriving DecidableEq, Repr

/-- Truthiness of optional bytes: `None` and `b""` are falsy. -/
def truthyOB : Option (List Nat) → Bool
  | none => false
  | some b => !b.isEmpty

/-- A `Downloader` instance. Overridable capabilities (`get_data`,
`get_bibtex_url`, `get_document_url`, `get_doi`) are `none` when the
subclass leaves them unimplemented (the base-class bodies raise
`NotImplementedError`). External collaborators are function-valued fields:
`session_get` (the response body per URL), `decode` (utf-8 decoding),
`bibtex_to_dict` (the bibtex parser) and `guess` (content-type sniffing).
`netLog` records every URL requested on the instance's session, `tmpCounter`
numbers the temporary files handed out by `tempfile.mktemp`, and `fs`
records the files written to disk. -/
structure Downloader where
  get_data : Option (List (String × String))
  get_bibtex_url : Option String
  get_document_url : Option String
  get_doi : Option String
  session_get : String → List Nat
  decode : List Nat → String
  bibtex_to_dict : String → List (List (String × String))
  guess : List Nat → Option FType
  expected_document_extension : Option ExpectedExt
  bibtex_data : Option String
  document_data : Option (List Nat)
  netLog : List String
  tmpCounter : Nat
  fs : List (String × List Nat)
  ctx : Ctx

/-- `self.session.get(url)`: record the request and return the response
bytes. -/
def sget (d : Downloader) (url : String) : Downloader × List Nat :=
  ({ d with netLog := d.netLog ++ [url] }, d.session_get url)

/-- Shallow embedding of `Downloader.download_bibtex`: `none` is the
`NotImplementedError` raised by the default `get_bibtex_url`; a falsy URL
returns without downloading; otherwise the decoded response body is stored
in the `bibtex_data` cache. -/
def download_bibtex (d : Downloader) : Option Downloader :=
  match d.get_bibtex_url with
  | none => none
  | some url =>
    if url.isEmpty then some d
    else
      let r := sget d url
      some { r.1 with bibtex_data := some (d.decode r.2) }

/-- Shallow embedding of `Downloader.get_bibtex_data`: download first when
the cache is falsy, then return the cache. `none` is a propagated
exception. -/
def get_bibtex_data (d : Downloader) : Option (Downloader × Option String) :=
  if truthyOS d.bibtex_data then some (d, d.bibtex_data)
  else (download_bibtex d).map fun d1 => (d1, d1.bibtex_data)

/-- Shallow embedding of `Downloader.download_document`: `none` is the
`NotImplementedError` raised by the default `get_document_url`; a falsy URL
returns without downloading; otherwise the raw response body is stored in
the `document_data` cache. -/
def download_document (d : Downloader) : Option Downloader :=
  match d.get_document_url with
  | none => none
  | some url =>
    if url.isEmpty then some d
    else
      let r := sget d url
      some { r.1 with document_data := some r.2 }

/-- Shallow embedding of `Downloader.get_document_data`: download first when
the cache is falsy, then return the cache. `none` is a propagated
exception. -/
def get_document_data (d : Downloader) :
    Option (Downloader × Option (List Nat)) :=
  if truthyOB d.document_data then some (d, d.document_data)
  else (download_document d).map fun d1 => (d1, d1.document_data)

/-- Shallow embedding of `Downloader.check_document_format`. `none` models a
raised exception: either one propagated out of `get_document_data`, the
`TypeError` of sniffing absent bytes, or — decisive for the list-valued
configuration — the `UnboundLocalError` on `expected_document_extensions`,
which the source never assigns when `expected_document_extension` is a
list. -/
def check_document_format (d : Downloader) : Option (Downloader × Bool) :=
  match d.expected_document_extension with
  | none => some (d, true)
  | some exp =>
    match get_document_data d with
    | none => none
    | some (d1, raw) =>
      match raw with
      | none => none
      | some bytes =>
        match d1.guess bytes with
        | none => some (d1, false)
        | some kind =>
          match exp with
          | ExpectedExt.one s => some (d1, kind.extension = s)
          | ExpectedExt.many _ => none

/-- Stage 1 of `fetch`: `get_data`, with `NotImplementedError` treated as
"skip"; on success the returned mapping is merged into `ctx.data`. -/
def fetch_stage1 (d : Downloader) : Downloader :=
  match d.get_data with
  | none => d
  | some data => { d with ctx := { d.ctx with data := dictUpdate d.ctx.data data } }

/-- Stage 2 of `fetch`: `download_bibtex` with `NotImplementedError` treated
as "skip"; otherwise `get_bibtex_data`, and when the raw text is truthy the
first entry of `bibtex_to_dict` of it (if any) is merged into `ctx.data`.
`none` is an exception escaping `fetch`. -/
def fetch_stage2 (d : Downloader) : Option Downloader :=
  match download_bibtex d with
  | none => some d
  | some d1 =>
    match get_bibtex_data d1 with
    | none => none
    | some (d2, raw) =>
      if truthyOS raw then
        match d2.bibtex_to_dict (raw.getD "") with
        | [] => some d2
        | entry :: _ =>
          some { d2 with ctx := { d2.ctx with data := dictUpdate d2.ctx.data entry } }
      else some d2

/-- Stage 3 of `fetch`: `get_doi`, with `NotImplementedError` treated as
"skip"; on success the value is written to `ctx.data["doi"]`. -/
def fetch_stage3 (d : Downloader) : Downloader :=
  match d.get_doi with
  | none => d
  | some doi => { d with ctx := { d.ctx with data := dictInsert d.ctx.data "doi" doi } }

/-- Stage 4 of `fetch`: `download_document` with `NotImplementedError`
treated as "skip"; otherwise `get_document_data`, and when the bytes are
truthy and `check_document_format` passes, they are written to a fresh
temporary file whose path is appended to `ctx.files`. `none` is an
exception escaping `fetch`. -/
def fetch_stage4 (d : Downloader) : Option Downloader :=
  match download_document d with
  | none => some d
  | some d1 =>
    match get_document_data d1 with
    | none => none
    | some (d2, raw) =>
      if truthyOB raw then
        match check_document_format d2 with
        | none => none
        | some (d3, ok) =>
          if ok then
            let tmp := "tmp" ++ toString d3.tmpCounter
            some { d3 with
              tmpCounter := d3.tmpCounter + 1
              fs := d3.fs ++ [(tmp, raw.getD [])]
              ctx := { d3.ctx with files := d3.ctx.files ++ [tmp] } }
          else some d3
      else some d2

/-- Shallow embedding of `Downloader.fetch`: the four stages in order; an
uncaught exception in stage 2 aborts before stages 3 and 4. -/
def fetch (d : Downloader) : Option Downloader :=
  match fetch_stage2 (fetch_stage1 d) with
  | none => none
  | some d1 => fetch_stage4 (fetch_stage3 d1)

/-! ## Concrete instances used to evaluate the model -/

/-- A trivial author-formatting collaborator. -/
def fmt0 : List Author → String := fun _ => ""

/-- The default value for `(getAttr e "content")` lookups. -/
def contentD (e : Element) : String := (getAttr e "content").getD ""

/-- An empty shared context. -/
def emptyCtx : Ctx := { data := [], files := [] }

/-- A downloader with every capability unimplemented and a fresh state. -/
def baseD : Downloader :=
  { get_data := none
    get_bibtex_url := none
    get_document_url := none
    get_doi := none
    session_get := fun _ => []
    decode := fun _ => ""
    bibtex_to_dict := fun _ => []
    guess := fun _ => none
    expected_document_extension := none
    bibtex_data := none
    document_data := none
    netLog := []
    tmpCounter := 0
    fs := []
    ctx := emptyCtx }

/-- The sniffed kind of a PDF file. -/
def pdfKind : FType := { extension := "pdf", mime := "application/pdf" }

/-- The sniffed kind of an EPUB file. -/
def epubKind : FType := { extension := "epub", mime := "application/epub+zip" }

/-- Downloaded bytes, no expected extension configured. -/
def cfmtNone : Downloader := { baseD with document_data := some [1, 2] }

/-- Expected extension the single tag "pdf", bytes sniffed as PDF. -/
def cfmtOk : Downloader :=
  { baseD with
    expected_document_extension := some (ExpectedExt.one "pdf")
    document_data := some [1, 2]
    guess := fun _ => some pdfKind }

/-- Expected extension the single tag "pdf", bytes sniffed as EPUB. -/
def cfmtMismatch : Downloader :=
  { cfmtOk with guess := fun _ => some epubKind }

/-- Expected extension the single tag "pdf", sniffing yields no type. -/
def cfmtSniffFail : Downloader :=
  { cfmtOk with guess := fun _ => none }

/-- Expected extension configured as the list `["pdf"]`, bytes sniffed as
PDF: the member test should succeed, but the source's local variable
`expected_document_extensions` is never assigned in this branch. -/
def cfmtList : Downloader :=
  { cfmtOk with expected_document_extension := some (ExpectedExt.many ["pdf"]) }

/-- A downloader implementing only `get_doi`. -/
def onlyDoiD : Downloader := { baseD with get_doi := some "10.1000/x" }

/-- A downloader exercising all three metadata stages with a colliding
"title" field and a colliding "doi" field. -/
def mergeD : Downloader :=
  { baseD with
    get_data := some [("title", "A"), ("doi", "1")]
    get_bibtex_url := some "u"
    session_get := fun _ => [7]
    decode := fun _ => "bib"
    bibtex_to_dict := fun _ => [[("title", "B"), ("doi", "2")]]
    get_doi := some "3" }

/-- The state of `mergeD` after `fetch`. -/
def mergeD1 : Downloader :=
  { mergeD with
    bibtex_data := some "bib"
    netLog := ["u"]
    ctx := { data := [("title", "B"), ("doi", "3")], files := [] } }

/-- A downloader whose document download succeeds but whose bytes sniff as
EPUB against an expected "pdf". -/
def cd4 : Downloader :=
  { baseD with
    get_document_url := some "du"
    session_get := fun _ => [9]
    expected_document_extension := some (ExpectedExt.one "pdf")
    guess := fun _ => some epubKind }

/-- The state of `cd4` after `download_document`. -/
def cd4a : Downloader := { cd4 with document_data := some [9], netLog := ["du"] }

/-- A downloader whose bibtex download yields an empty decoded body. -/
def cbibD : Downloader := { baseD with get_bibtex_url := some "u" }

/-- The state of `cbibD` after one `download_bibtex`: the cache is populated
with the empty string. -/
def cbibD1 : Downloader := { cbibD with bibtex_data := some "", netLog := ["u"] }

/-- The state of `cbibD1` after `get_bibtex_data` re-downloads. -/
def cbibD2 : Downloader :=
  { cbibD with bibtex_data := some "", netLog := ["u", "u"] }

/-- A citation_author element for "Ann B Smith". -/
def annElem : Element :=
  { tag := "meta", attrs := [("name", "citation_author"), ("content", "Ann B Smith")] }

/-- A second citation_author element, for "Bob Jones". -/
def bobElem : Element :=
  { tag := "meta", attrs := [("name", "citation_author"), ("content", "Bob Jones")] }

/-- A single citation_author_institution element. -/
def mitElem : Element :=
  { tag := "meta"
    attrs := [("name", "citation_author_institution"), ("content", "MIT")] }

/-- Two authors but only one institution: pairing must truncate. -/
def csoup : List Element := [annElem, bobElem, mitElem]

/-- A heap whose single cell holds the built-in equivalence table. -/
def cheap : Heap := { cells := [meta_equivalences] }

/-! ## Lemmas about the dictionary operations -/

theorem dlookup_dictInsert_self {β : Type} (d : List (String × β)) (k : String)
    (v : β) : dlookup k (dictInsert d k v) = some v := by
  induction d with
  | nil => simp [dictInsert, dlookup]
  | cons p t ih =>
    obtain ⟨k1, v1⟩ := p
    by_cases h : k1 = k
    · simp [dictInsert, h, dlookup]
    · simp [dictInsert, h, dlookup, ih]

theorem dlookup_dictInsert_ne {β : Type} (d : List (String × β)) (k k1 : String)
    (v : β) (h : k ≠ k1) : dlookup k1 (dictInsert d k v) = dlookup k1 d := by
  induction d with
  | nil => simp [dictInsert, dlookup, h]
  | cons p t ih =>
    obtain ⟨k2, v2⟩ := p
    by_cases h2 : k2 = k
    · subst h2
      simp [dictInsert, dlookup, h]
    · simp [dictInsert, h2, dlookup, ih]

theorem dlookup_dictUpdate_not_mem {β : Type} (d2 : List (String × β)) :
    ∀ (d1 : List (String × β)) (k : String), (∀ p ∈ d2, p.1 ≠ k) →
      dlookup k (dictUpdate d1 d2) = dlookup k d1 := by
  induction d2 with
  | nil => intro d1 k _; rfl
  | cons p t ih =>
    intro d1 k h
    have hp : p.1 ≠ k := h p (List.mem_cons_self p t)
    have ht : ∀ q ∈ t, q.1 ≠ k := fun q hq => h q (List.mem_cons_of_mem p hq)
    calc dlookup k (dictUpdate d1 (p :: t))
        = dlookup k (dictUpdate (dictInsert d1 p.1 p.2) t) := rfl
      _ = dlookup k (dictInsert d1 p.1 p.2) := ih _ k ht
      _ = dlookup k d1 := dlookup_dictInsert_ne _ _ _ _ hp

theorem dlookup_dictUpdate_mem {β : Type} (d2 : List (String × β)) :
    ∀ (d1 : List (String × β)) (k : String) (v : β),
      (d2.map Prod.fst).Nodup → dlookup k d2 = some v →
      dlookup k (dictUpdate d1 d2) = some v := by
  induction d2 with
  | nil => intro d1 k v _ h; simp [dlookup] at h
  | cons p t ih =>
    intro d1 k v hnd h
    obtain ⟨k1, v1⟩ := p
    rw [List.map_cons, List.nodup_cons] at hnd
    by_cases hk : k1 = k
    · subst hk
      rw [dlookup, if_pos rfl] at h
      have ht : ∀ q ∈ t, q.1 ≠ k1 := by
        intro q hq hqk
        exact hnd.1 (List.mem_map.mpr ⟨q, hq, hqk⟩)
      have h1 : dictUpdate d1 ((k1, v1) :: t)
          = dictUpdate (dictInsert d1 k1 v1) t := rfl
      rw [h1, dlookup_dictUpdate_not_mem t _ k1 ht, dlookup_dictInsert_self]
      exact h
    · rw [dlookup, if_neg hk] at h
      exact ih _ k v hnd.2 h

/-! ## Lemmas about whitespace splitting -/

theorem splitWsAux_nonspace (acc : List Char) (b : Bool) (c : Char)
    (cs : List Char) (h : isSpace c = false) :
    splitWsAux acc b (c :: cs) = splitWsAux (c :: acc) false cs := by
  simp [splitWsAux, h]

theorem splitWsAux_space_emit (acc : List Char) (c : Char) (cs : List Char)
    (h : isSpace c = true) :
    splitWsAux acc false (c :: cs) =
      String.mk acc.reverse :: splitWsAux [] true cs := by
  simp [splitWsAux, h]

theorem splitWsAux_no_space (l : List Char) :
    ∀ (acc : List Char) (b : Bool), (∀ c ∈ l, isSpace c = false) →
      splitWsAux acc b l = [String.mk (acc.reverse ++ l)] := by
  induction l with
  | nil => intro acc b _; simp [splitWsAux]
  | cons c cs ih =>
    intro acc b h
    have hc : isSpace c = false := h c (List.mem_cons_self c cs)
    have hcs : ∀ x ∈ cs, isSpace x = false :=
      fun x hx => h x (List.mem_cons_of_mem c hx)
    rw [splitWsAux_nonspace acc b c cs hc, ih (c :: acc) false hcs]
    simp

theorem splitWsAux_word_space (w : List Char) :
    ∀ (acc : List Char) (b : Bool) (rest : List Char), w ≠ [] →
      (∀ c ∈ w, isSpace c = false) →
      splitWsAux acc b (w ++ ' ' :: rest) =
        String.mk (acc.reverse ++ w) :: splitWsAux [] true rest := by
  induction w with
  | nil => intro _ _ _ h _; exact absurd rfl h
  | cons c w1 ih =>
    intro acc b rest _ h
    have hc : isSpace c = false := h c (List.mem_cons_self c w1)
    have hw1 : ∀ x ∈ w1, isSpace x = false :=
      fun x hx => h x (List.mem_cons_of_mem c hx)
    rw [List.cons_append, splitWsAux_nonspace acc b c _ hc]
    cases w1 with
    | nil =>
      rw [List.nil_append,
        splitWsAux_space_emit (c :: acc) ' ' rest (by decide)]
      simp
    | cons c2 w2 =>
      rw [ih (c :: acc) false rest (by simp) hw1]
      simp

theorem intercalate_go_data (as : List String) :
    ∀ acc : String, (String.intercalate.go acc " " as).data
      = acc.data ++ (as.map fun x => ' ' :: x.data).flatten := by
  induction as with
  | nil => intro acc; simp [String.intercalate.go]
  | cons a as ih =>
    intro acc
    rw [String.intercalate.go, ih]
    simp

theorem intercalate_space_data (a : String) (as : List String) :
    (String.intercalate " " (a :: as)).data
      = a.data ++ (as.map fun x => ' ' :: x.data).flatten := by
  rw [String.intercalate, intercalate_go_data]

theorem splitWsAux_words (as : List String) :
    ∀ (a : String) (b : Bool),
      (∀ w ∈ a :: as, w.data ≠ [] ∧ ∀ c ∈ w.data, isSpace c = false) →
      splitWsAux [] b (a.data ++ (as.map fun x => ' ' :: x.data).flatten)
        = a :: as := by
  induction as with
  | nil =>
    intro a b h
    obtain ⟨_, ha2⟩ := h a (List.mem_cons_self a [])
    rw [List.map_nil, List.flatten_nil, List.append_nil,
      splitWsAux_no_space a.data [] b ha2]
    rfl
  | cons a2 as2 ih =>
    intro a b h
    obtain ⟨ha1, ha2⟩ := h a (List.mem_cons_self a _)
    rw [List.map_cons, List.flatten_cons, List.cons_append,
      splitWsAux_word_space a.data [] b _ ha1 ha2,
      ih a2 true (fun w hw => h w (List.mem_cons_of_mem a hw))]
    rfl

theorem reSplitWs_intercalate (ws : List String) (hne : ws ≠ [])
    (hw : ∀ w ∈ ws, w.data ≠ [] ∧ ∀ c ∈ w.data, isSpace c = false) :
    reSplitWs (" ".intercalate ws) = ws := by
  match ws, hne with
  | a :: as, _ =>
    rw [reSplitWs,
      show (" ".intercalate (a :: as)).toList = (" ".intercalate (a :: as)).data
        from rfl,
      intercalate_space_data]
    exact splitWsAux_words as a false hw

/-! ## Lemmas about the author list builder -/

theorem build_author_list_eq_map (ts : List (Element × Option Element))
    (h : ∀ t ∈ ts, (getAttr t.1 "content").isSome) :
    build_author_list ts
      = some (ts.map fun t => author_record (contentD t.1) t.2) := by
  induction ts with
  | nil => rfl
  | cons t ts ih =>
    have h1 := h t (List.mem_cons_self t ts)
    obtain ⟨s, hs⟩ := Option.isSome_iff_exists.mp h1
    have h2 : contentD t.1 = s := by rw [contentD, hs]; rfl
    rw [build_author_list, hs,
      ih (fun x hx => h x (List.mem_cons_of_mem t hx)), List.map_cons, h2]
    rfl

/-! ## Frame lemmas for the downloader operations -/

theorem download_bibtex_frame (d d1 : Downloader)
    (h : download_bibtex d = some d1) :
    d1.ctx = d.ctx ∧ d1.fs = d.fs ∧ d1.tmpCounter = d.tmpCounter ∧
      d1.get_doi = d.get_doi ∧ d1.bibtex_to_dict = d.bibtex_to_dict := by
  unfold download_bibtex at h
  split at h
  · exact Option.noConfusion h
  · split at h
    · obtain rfl := Option.some.inj h
      exact ⟨rfl, rfl, rfl, rfl, rfl⟩
    · obtain rfl := Option.some.inj h
      exact ⟨rfl, rfl, rfl, rfl, rfl⟩

theorem get_bibtex_data_frame (d d1 : Downloader) (raw : Option String)
    (h : get_bibtex_data d = some (d1, raw)) :
    d1.ctx = d.ctx ∧ d1.fs = d.fs ∧ d1.tmpCounter = d.tmpCounter ∧
      d1.get_doi = d.get_doi ∧ d1.bibtex_to_dict = d.bibtex_to_dict := by
  unfold get_bibtex_data at h
  split at h
  · obtain ⟨rfl, rfl⟩ := Prod.mk.injEq .. ▸ Option.some.inj h
    exact ⟨rfl, rfl, rfl, rfl, rfl⟩
  · cases hd : download_bibtex d with
    | none => rw [hd] at h; exact Option.noConfusion h
    | some d2 =>
      rw [hd] at h
      have h2 : some ((d2, d2.bibtex_data) : Downloader × Option String)
          = some (d1, raw) := h
      obtain ⟨h1, _⟩ := Prod.mk.injEq .. ▸ Option.some.inj h2
      subst h1
      exact download_bibtex_frame d d2 hd

theorem download_document_frame (d d1 : Downloader)
    (h : download_document d = some d1) :
    d1.ctx = d.ctx ∧ d1.fs = d.fs ∧ d1.tmpCounter = d.tmpCounter := by
  unfold download_document at h
  split at h
  · exact Option.noConfusion h
  · split at h
    · obtain rfl := Option.some.inj h
      exact ⟨rfl, rfl, rfl⟩
    · obtain rfl := Option.some.inj h
      exact ⟨rfl, rfl, rfl⟩

theorem get_document_data_frame (d d1 : Downloader) (raw : Option (List Nat))
    (h : get_document_data d = some (d1, raw)) :
    d1.ctx = d.ctx ∧ d1.fs = d.fs ∧ d1.tmpCounter = d.tmpCounter := by
  unfold get_document_data at h
  split at h
  · obtain ⟨rfl, rfl⟩ := Prod.mk.injEq .. ▸ Option.some.inj h
    exact ⟨rfl, rfl, rfl⟩
  · cases hd : download_document d with
    | none => rw [hd] at h; exact Option.noConfusion h
    | some d2 =>
      rw [hd] at h
      have h2 : some ((d2, d2.document_data) : Downloader × Option (List Nat))
          = some (d1, raw) := h
      obtain ⟨h1, _⟩ := Prod.mk.injEq .. ▸ Option.some.inj h2
      subst h1
      exact download_document_frame d d2 hd

theorem check_document_format_frame (d d1 : Downloader) (ok : Bool)
    (h : check_document_format d = some (d1, ok)) :
    d1.ctx = d.ctx ∧ d1.fs = d.fs ∧ d1.tmpCounter = d.tmpCounter := by
  unfold check_document_format at h
  split at h
  · obtain ⟨rfl, rfl⟩ := Prod.mk.injEq .. ▸ Option.some.inj h
    exact ⟨rfl, rfl, rfl⟩
  · split at h
    · exact Option.noConfusion h
    next d2 raw hg =>
      have hf := get_document_data_frame d d2 raw hg
      split at h
      · exact Option.noConfusion h
      · split at h
        · obtain ⟨rfl, rfl⟩ := Prod.mk.injEq .. ▸ Option.some.inj h
          exact hf
        · split at h
          · obtain ⟨rfl, rfl⟩ := Prod.mk.injEq .. ▸ Option.some.inj h
            exact hf
          · exact Option.noConfusion h

theorem fetch_stage4_data (d d1 : Downloader) (h : fetch_stage4 d = some d1) :
    d1.ctx.data = d.ctx.data := by
  unfold fetch_stage4 at h
  split at h
  · obtain rfl := Option.some.inj h
    rfl
  next d2 hdl =>
    split at h
    · exact Option.noConfusion h
    next d3 raw hg =>
      have hfd := congrArg Ctx.data (download_document_frame d d2 hdl).1
      have hfg := congrArg Ctx.data (get_document_data_frame d2 d3 raw hg).1
      split at h
      · split at h
        · exact Option.noConfusion h
        next d4 ok hc =>
          have hfc := congrArg Ctx.data (check_document_format_frame d3 d4 ok hc).1
          split at h
          · obtain rfl := Option.some.inj h
            show d4.ctx.data = d.ctx.data
            rw [hfc, hfg, hfd]
          · obtain rfl := Option.some.inj h
            rw [hfc, hfg, hfd]
      · obtain rfl := Option.some.inj h
        rw [hfg, hfd]

theorem fetch_stage1_get_doi (d : Downloader) :
    (fetch_stage1 d).get_doi = d.get_doi := by
  unfold fetch_stage1; split <;> rfl

theorem fetch_stage2_get_doi (d d1 : Downloader) (h : fetch_stage2 d = some d1) :
    d1.get_doi = d.get_doi := by
  unfold fetch_stage2 at h
  split at h
  · obtain rfl := Option.some.inj h
    rfl
  next d2 hdl =>
    split at h
    · exact Option.noConfusion h
    next d3 raw hg =>
      have hfd := (download_bibtex_frame d d2 hdl).2.2.2.1
      have hfg := (get_bibtex_data_frame d2 d3 raw hg).2.2.2.1
      split at h
      · split at h
        · obtain rfl := Option.some.inj h
          rw [hfg, hfd]
        · obtain rfl := Option.some.inj h
          show d3.get_doi = d.get_doi
          rw [hfg, hfd]
      · obtain rfl := Option.some.inj h
        rw [hfg, hfd]

/-! ## Claim C2: document format validation -/

/-- C2: check_document_format returns True when no expected extension is
configured; with a single configured tag it returns True iff the sniffed
extension equals it, False when sniffing fails or mismatches — but with a
list-valued configuration the claimed member test never happens: the code
raises UnboundLocalError (the local expected_document_extensions is never
assigned in that branch), modelled as the result `none`, where the claim
requires True for a sniffed tag in the set. -/
theorem check_document_format_eval :
    check_document_format cfmtNone = some (cfmtNone, true)
    ∧ check_document_format cfmtOk = some (cfmtOk, true)
    ∧ check_document_format cfmtMismatch = some (cfmtMismatch, false)
    ∧ check_document_format cfmtSniffFail = some (cfmtSniffFail, false)
    ∧ check_document_format cfmtList = none :=
  ⟨rfl, rfl, rfl, rfl, rfl⟩

/-! ## Claim C3: a downloader implementing only get_doi -/

/-- C3: on a downloader implementing only get_doi (get_data,
get_bibtex_url and get_document_url all raise NotImplementedError), fetch
on an initially empty context yields data exactly containing the doi and an
empty files list. -/
theorem fetch_only_get_doi (d : Downloader) (v : String)
    (h1 : d.get_data = none) (h2 : d.get_bibtex_url = none)
    (h3 : d.get_document_url = none) (h4 : d.get_doi = some v)
    (h5 : d.ctx = emptyCtx) :
    fetch d = some { d with ctx := { data := [("doi", v)], files := [] } } := by
  have s1 : fetch_stage1 d = d := by
    unfold fetch_stage1; rw [h1]
  have s2 : fetch_stage2 d = some d := by
    unfold fetch_stage2 download_bibtex; rw [h2]
  have s3 : fetch_stage3 d
      = { d with ctx := { d.ctx with data := dictInsert d.ctx.data "doi" v } } := by
    unfold fetch_stage3; rw [h4]
  have s4 : fetch_stage4 (fetch_stage3 d) = some (fetch_stage3 d) := by
    have hd : (fetch_stage3 d).get_document_url = none := by rw [s3]; exact h3
    unfold fetch_stage4 download_document; rw [hd]
  unfold fetch
  rw [s1, s2]
  show fetch_stage4 (fetch_stage3 d) = _
  rw [s4, s3, h5]
  rfl

/-- Witness for C3. -/
theorem fetch_only_get_doi_witness :
    fetch onlyDoiD
      = some { onlyDoiD with
               ctx := { data := [("doi", "10.1000/x")], files := [] } } :=
  fetch_only_get_doi onlyDoiD "10.1000/x" rfl rfl rfl rfl rfl

/-! ## Claim C4: a failed format check leaves the context untouched -/

/-- C4: in the document stage of fetch, if the downloaded bytes fail
check_document_format, no element is appended to the context's files, no
temporary file is created (the filesystem log and the mktemp counter are
unchanged), the stage raises nothing, and the context's data is unchanged
by the stage. -/
theorem fetch_document_stage_failed_check (d d1 d2 d3 : Downloader)
    (raw : Option (List Nat))
    (h1 : download_document d = some d1)
    (h2 : get_document_data d1 = some (d2, raw))
    (h3 : truthyOB raw = true)
    (h4 : check_document_format d2 = some (d3, false)) :
    fetch_stage4 d = some d3 ∧ d3.ctx.files = d.ctx.files ∧
      d3.ctx.data = d.ctx.data ∧ d3.fs = d.fs ∧
      d3.tmpCounter = d.tmpCounter := by
  have hd := download_document_frame d d1 h1
  have hg := get_document_data_frame d1 d2 raw h2
  have hc := check_document_format_frame d2 d3 false h4
  have e : fetch_stage4 d = some d3 := by
    simp only [fetch_stage4, h1, h2, h3, if_true, h4]
    simp
  refine ⟨e, ?_, ?_, ?_, ?_⟩
  · rw [congrArg Ctx.files hc.1, congrArg Ctx.files hg.1, congrArg Ctx.files hd.1]
  · rw [congrArg Ctx.data hc.1, congrArg Ctx.data hg.1, congrArg Ctx.data hd.1]
  · rw [hc.2.1, hg.2.1, hd.2.1]
  · rw [hc.2.2, hg.2.2, hd.2.2]

/-- Witness for C4. -/
theorem fetch_document_stage_failed_check_witness :
    fetch_stage4 cd4 = some cd4a ∧ cd4a.ctx.files = cd4.ctx.files ∧
      cd4a.ctx.data = cd4.ctx.data ∧ cd4a.fs = cd4.fs ∧
      cd4a.tmpCounter = cd4.tmpCounter :=
  fetch_document_stage_failed_check cd4 cd4a cd4a cd4a (some [9]) rfl rfl rfl rfl

/-! ## Claim C8: cache reuse in get_bibtex_data and get_document_data -/

/-- C8 (amended): once the bibtex_data or document_data cache holds a
truthy (non-empty) value, a call to get_bibtex_data / get_document_data
returns the cached value with the downloader state unchanged — in
particular no further network request is made. -/
theorem cached_data_reused_when_truthy :
    (∀ (d : Downloader) (s : String), d.bibtex_data = some s → s ≠ "" →
      get_bibtex_data d = some (d, some s))
    ∧ (∀ (d : Downloader) (b : List Nat), d.document_data = some b → b ≠ [] →
      get_document_data d = some (d, some b)) := by
  constructor
  · intro d s h1 h2
    have he : s.isEmpty = false := by
      rw [Bool.eq_false_iff]
      intro hh
      exact h2 ((String.isEmpty_iff s).mp hh)
    have ht : truthyOS d.bibtex_data = true := by
      rw [h1]
      simp [truthyOS, he]
    unfold get_bibtex_data
    rw [if_pos ht, h1]
  · intro d b h1 h2
    have ht : truthyOB d.document_data = true := by
      rw [h1]
      simp [truthyOB, h2]
    unfold get_document_data
    rw [if_pos ht, h1]

/-- Witness for C8 (amended). -/
theorem cached_data_reused_when_truthy_witness :
    get_bibtex_data { baseD with bibtex_data := some "x" }
      = some ({ baseD with bibtex_data := some "x" }, some "x")
    ∧ get_document_data { baseD with document_data := some [1] }
      = some ({ baseD with document_data := some [1] }, some [1]) :=
  ⟨cached_data_reused_when_truthy.1 _ "x" rfl (by decide),
   cached_data_reused_when_truthy.2 _ [1] rfl (by decide)⟩

/-- Counterexample for C8 as stated: after download_bibtex populates the
cache with the (empty) decoded body, a subsequent get_bibtex_data call
triggers a second network request (the session log grows) instead of
reusing the cache. -/
theorem cache_refetched_when_empty_cex :
    download_bibtex cbibD = some cbibD1
    ∧ cbibD1.bibtex_data = some ""
    ∧ get_bibtex_data cbibD1 = some (cbibD2, some "")
    ∧ cbibD1.netLog = ["u"] ∧ cbibD2.netLog = ["u", "u"] :=
  ⟨rfl, rfl, rfl, rfl, rfl⟩

/-! ## Claim C10: the global table is never mutated -/

/-- C10: parse_meta_headers builds its effective equivalence table on a
fresh copy: for every heap whose cell `a` holds the module-level
meta_equivalences, the cell is identical after the table-building
statements run, while the freshly allocated local cell holds the built-in
table overlaid with the extra equivalences. -/
theorem meta_equivalences_not_mutated (h : Heap) (a : Nat)
    (extra : List (String × String)) (ha : a < h.cells.length)
    (hv : hget h a = meta_equivalences) :
    hget (parse_meta_headers_table h a extra).1 a = meta_equivalences
    ∧ hget (parse_meta_headers_table h a extra).1
        (parse_meta_headers_table h a extra).2
      = dictUpdate meta_equivalences extra := by
  have hx : ((h.cells ++ [hget h a]).get? h.cells.length) = some (hget h a) := by
    rw [List.get?_eq_getElem?, List.getElem?_append_right (Nat.le_refl _)]
    simp
  have hcopy : hget { cells := h.cells ++ [hget h a] } h.cells.length
      = hget h a := by
    rw [hget]
    show ((h.cells ++ [hget h a]).get? h.cells.length).getD [] = _
    rw [hx]
    rfl
  constructor
  · show hget (hset { cells := h.cells ++ [hget h a] } h.cells.length
        (dictUpdate (hget { cells := h.cells ++ [hget h a] } h.cells.length) extra)) a
      = meta_equivalences
    rw [hget, hset]
    show (((h.cells ++ [hget h a]).set h.cells.length _).get? a).getD [] = _
    rw [List.get?_eq_getElem?, List.getElem?_set_ne (Nat.ne_of_gt ha),
      List.getElem?_append_left ha, ← List.get?_eq_getElem?]
    exact hv
  · show hget (hset { cells := h.cells ++ [hget h a] } h.cells.length
        (dictUpdate (hget { cells := h.cells ++ [hget h a] } h.cells.length) extra))
        h.cells.length
      = dictUpdate meta_equivalences extra
    rw [hcopy, hget, hset]
    show (((h.cells ++ [hget h a]).set h.cells.length
        (dictUpdate (hget h a) extra)).get? h.cells.length).getD [] = _
    rw [List.get?_eq_getElem?, List.getElem?_set_self (by simp), hv]
    rfl

/-- Witness for C10. -/
theorem meta_equivalences_not_mutated_witness :
    hget (parse_meta_headers_table cheap 0 [("x", "y")]).1 0 = meta_equivalences
    ∧ hget (parse_meta_headers_table cheap 0 [("x", "y")]).1
        (parse_meta_headers_table cheap 0 [("x", "y")]).2
      = dictUpdate meta_equivalences [("x", "y")] :=
  meta_equivalences_not_mutated cheap 0 [("x", "y")] (by simp [cheap]) rfl

/-! ## Characterization lemmas for the extractors -/

theorem parse_meta_authors_eq (soup : List Element) :
    parse_meta_authors soup =
      build_author_list (
        if ¬(affsOf soup).isEmpty ∧ ¬(authorsOf soup).isEmpty then
          (authorsOf soup).zip ((affsOf soup).map some)
        else if ¬(authorsOf soup).isEmpty then
          (authorsOf soup).map fun a => (a, none)
        else []) := rfl

theorem authorsOf_single_ne (e : Element)
    (hca : getAttr e "name" ≠ some "citation_author") :
    authorsOf [e] = [] := by
  simp [authorsOf, List.filter_cons, hca]

theorem parse_meta_authors_single_ne (e : Element)
    (hca : getAttr e "name" ≠ some "citation_author") :
    parse_meta_authors [e] = some [] := by
  rw [parse_meta_authors_eq, authorsOf_single_ne e hca]
  simp [build_author_list]

theorem parse_meta_headers_of_authors_empty (fmt : List Author → String)
    (soup : List Element) (extra : List (String × String))
    (h : parse_meta_authors soup = some []) :
    parse_meta_headers fmt soup extra = some (headers_data soup extra) := by
  unfold parse_meta_headers
  rw [h]

theorem headers_data_single (e : Element) (extra : List (String × String))
    (htag : e.tag = "meta") :
    headers_data [e] extra
      = headerStep (dictUpdate meta_equivalences extra) [] e := by
  rw [headers_data]
  simp [List.filter_cons, htag]

/-! ## Claim C7: extra_equivalences override the built-in table -/

/-- C7: for a key in both the built-in table and extra_equivalences, the
effective table maps it to the extra_equivalences value, and a meta element
carrying that key stores its content under the field named by
extra_equivalences (and under no other field). -/
theorem extra_equivalences_override (fmt : List Author → String)
    (extra : List (String × String)) (k c f : String)
    (hnd : (extra.map Prod.fst).Nodup)
    (hk0 : k ≠ "")
    (_hb : dlookup (pyLower k) meta_equivalences ≠ none)
    (he : dlookup (pyLower k) extra = some f)
    (hca : k ≠ "citation_author") :
    dlookup (pyLower k) (dictUpdate meta_equivalences extra) = some f
    ∧ parse_meta_headers fmt
        [{ tag := "meta", attrs := [("name", k), ("content", c)] }] extra
      = some [(f, MVal.vstr c)] := by
  have h1 : dlookup (pyLower k) (dictUpdate meta_equivalences extra) = some f :=
    dlookup_dictUpdate_mem extra meta_equivalences (pyLower k) f hnd he
  refine ⟨h1, ?_⟩
  have hke : k.isEmpty = false := by
    rw [Bool.eq_false_iff]
    intro hh
    exact hk0 ((String.isEmpty_iff k).mp hh)
  have hgn : getAttr { tag := "meta", attrs := [("name", k), ("content", c)] }
      "name" = some k := rfl
  have hgc : getAttr { tag := "meta", attrs := [("name", k), ("content", c)] }
      "content" = some c := by
    simp [getAttr, dlookup]
  have hmn : metaName { tag := "meta", attrs := [("name", k), ("content", c)] }
      = some k := by
    rw [metaName, hgn]
    simp [truthyOS, hke]
  have hca2 : getAttr { tag := "meta", attrs := [("name", k), ("content", c)] }
      "name" ≠ some "citation_author" := by
    rw [hgn]
    simp [hca]
  rw [parse_meta_headers_of_authors_empty fmt _ extra
      (parse_meta_authors_single_ne _ hca2),
    headers_data_single _ extra rfl]
  rw [headerStep, hmn]
  simp only [hke, Bool.false_eq_true, if_false, h1, hgc]
  rfl

/-- Witness for C7. -/
theorem extra_equivalences_override_witness :
    dlookup (pyLower "citation_doi")
        (dictUpdate meta_equivalences [("citation_doi", "mydoi")])
      = some "mydoi"
    ∧ parse_meta_headers fmt0
        [{ tag := "meta",
           attrs := [("name", "citation_doi"), ("content", "10.7/x")] }]
        [("citation_doi", "mydoi")]
      = some [("mydoi", MVal.vstr "10.7/x")] :=
  extra_equivalences_override fmt0 [("citation_doi", "mydoi")]
    "citation_doi" "10.7/x" "mydoi" (by simp) (by decide) (by decide)
    (by decide) (by decide)

/-! ## Claim C9: tolerance of missing or malformed meta attributes -/

/-- C9 (amended): parse_meta_headers raises no error for header elements
with missing attributes: one lacking both name and property contributes
nothing, and one whose identifier is not in the effective table contributes
nothing from the header loop; but an element whose identifier matches while
its content attribute is absent contributes an entry mapping the field to
the None value rather than being skipped. -/
theorem parse_meta_headers_malformed (fmt : List Author → String)
    (extra : List (String × String)) (e : Element) (htag : e.tag = "meta") :
    (getAttr e "name" = none → getAttr e "property" = none →
      parse_meta_headers fmt [e] extra = some [])
    ∧ (∀ nm : String, metaName e = some nm → nm.isEmpty = false →
        dlookup (pyLower nm) (dictUpdate meta_equivalences extra) = none →
        getAttr e "name" ≠ some "citation_author" →
        parse_meta_headers fmt [e] extra = some [])
    ∧ (∀ (nm f : String), metaName e = some nm → nm.isEmpty = false →
        getAttr e "content" = none →
        dlookup (pyLower nm) (dictUpdate meta_equivalences extra) = some f →
        getAttr e "name" ≠ some "citation_author" →
        parse_meta_headers fmt [e] extra = some [(f, MVal.vnone)]) := by
  refine ⟨?_, ?_, ?_⟩
  · intro hn hp
    have hca : getAttr e "name" ≠ some "citation_author" := by
      rw [hn]; exact Option.noConfusion
    have hmn : metaName e = none := by
      rw [metaName, hn, hp]
      simp [truthyOS]
    rw [parse_meta_headers_of_authors_empty fmt _ extra
        (parse_meta_authors_single_ne _ hca),
      headers_data_single _ extra htag, headerStep, hmn]
  · intro nm hmn hne hlk hca
    rw [parse_meta_headers_of_authors_empty fmt _ extra
        (parse_meta_authors_single_ne _ hca),
      headers_data_single _ extra htag, headerStep, hmn]
    simp only [hne, Bool.false_eq_true, if_false, hlk]
  · intro nm f hmn hne hct hlk hca
    rw [parse_meta_headers_of_authors_empty fmt _ extra
        (parse_meta_authors_single_ne _ hca),
      headers_data_single _ extra htag, headerStep, hmn]
    simp only [hne, Bool.false_eq_true, if_false, hlk, hct]
    rfl

/-- Witness for C9 (amended). -/
theorem parse_meta_headers_malformed_witness :
    parse_meta_headers fmt0 [{ tag := "meta", attrs := [] }] [] = some []
    ∧ parse_meta_headers fmt0
        [{ tag := "meta", attrs := [("name", "unknown_tag"), ("content", "x")] }] []
      = some []
    ∧ parse_meta_headers fmt0
        [{ tag := "meta", attrs := [("name", "citation_doi")] }] []
      = some [("doi", MVal.vnone)] :=
  ⟨(parse_meta_headers_malformed fmt0 [] _ rfl).1 rfl rfl,
   (parse_meta_headers_malformed fmt0 [] _ rfl).2.1 "unknown_tag" rfl rfl
     (by decide) (by decide),
   (parse_meta_headers_malformed fmt0 [] _ rfl).2.2 "citation_doi" "doi" rfl rfl
     rfl (by decide) (by decide)⟩

/-- Counterexample for C9 as stated: an element whose identifier matches
the table but whose content attribute is absent is not skipped — it
contributes an entry mapping the field to the None value; moreover a
citation_author element lacking content makes parse_meta_headers raise
(the TypeError of splitting None), and a citation_author element (whose
identifier is not in the table) still contributes author entries. -/
theorem parse_meta_headers_malformed_cex :
    parse_meta_headers fmt0 [{ tag := "meta", attrs := [("name", "citation_doi")] }] []
      = some [("doi", MVal.vnone)]
    ∧ parse_meta_headers fmt0
        [{ tag := "meta", attrs := [("name", "citation_author")] }] [] = none
    ∧ parse_meta_headers fmt0
        [{ tag := "meta",
           attrs := [("name", "citation_author"), ("content", "Ann Smith")] }] []
      = some [("author_list",
               MVal.valist [{ given := "Ann", family := "Smith", affiliation := [] }]),
              ("author", MVal.vstr "")] :=
  ⟨rfl, rfl, rfl⟩

/-! ## Claim C5: author/institution pairing policy -/

/-- C5: with both author and institution elements present,
parse_meta_authors pairs them positionally, truncating to the shorter list;
with only authors, each record carries an empty affiliation sequence; with
no authors, the result is the empty sequence — records in document order.
(The hypothesis: every author element carries a content attribute, since a
missing one raises instead.) -/
theorem parse_meta_authors_pairing (soup : List Element)
    (hc : ∀ e ∈ authorsOf soup, (getAttr e "content").isSome) :
    (authorsOf soup = [] → parse_meta_authors soup = some [])
    ∧ (authorsOf soup ≠ [] → affsOf soup = [] →
        parse_meta_authors soup
          = some ((authorsOf soup).map fun a => author_record (contentD a) none))
    ∧ (authorsOf soup ≠ [] → affsOf soup ≠ [] →
        parse_meta_authors soup
          = some (((authorsOf soup).zip (affsOf soup)).map
              fun p => author_record (contentD p.1) (some p.2))
        ∧ ((parse_meta_authors soup).getD []).length
            = min (authorsOf soup).length (affsOf soup).length) := by
  have honly : authorsOf soup ≠ [] → affsOf soup = [] →
      parse_meta_authors soup
        = build_author_list ((authorsOf soup).map fun a => (a, none)) := by
    intro h1 h2
    rw [parse_meta_authors_eq, h2]
    simp [List.isEmpty_iff, h1]
  have hboth : authorsOf soup ≠ [] → affsOf soup ≠ [] →
      parse_meta_authors soup
        = build_author_list ((authorsOf soup).zip ((affsOf soup).map some)) := by
    intro h1 h2
    rw [parse_meta_authors_eq]
    simp [List.isEmpty_iff, h1, h2]
  refine ⟨?_, ?_, ?_⟩
  · intro h0
    rw [parse_meta_authors_eq, h0]
    simp [build_author_list]
  · intro h1 h2
    rw [honly h1 h2, build_author_list_eq_map _ ?hc2]
    case hc2 =>
      intro t ht
      obtain ⟨a, ha, rfl⟩ := List.mem_map.mp ht
      exact hc a ha
    rw [List.map_map]
    rfl
  · intro h1 h2
    have hmain : parse_meta_authors soup
        = some (((authorsOf soup).zip (affsOf soup)).map
            fun p => author_record (contentD p.1) (some p.2)) := by
      rw [hboth h1 h2, build_author_list_eq_map _ ?hc3]
      case hc3 =>
        intro t ht
        obtain ⟨a, b⟩ := t
        have := (List.of_mem_zip ht).1
        exact hc a this
      rw [List.zip_map_right, List.map_map]
      rfl
    refine ⟨hmain, ?_⟩
    rw [hmain]
    simp [List.length_zip]

/-- Witness for C5, exercising the truncating branch: two authors, one
institution. -/
theorem parse_meta_authors_pairing_witness :
    parse_meta_authors csoup
      = some [{ given := "Ann", family := "B Smith",
                affiliation := [{ name := some "MIT" }] }]
    ∧ ((parse_meta_authors csoup).getD []).length
        = min (authorsOf csoup).length (affsOf csoup).length := by
  have h := (parse_meta_authors_pairing csoup (by decide)).2.2
    (by decide) (by decide)
  exact ⟨h.1.trans (by decide), h.2⟩

/-! ## Claim C6: full-name splitting -/

/-- C6: every full name is split on runs of whitespace; the first piece is
the given name and the remaining pieces joined by single spaces are the
family name. In particular, for a name assembled from whitespace-free
words, the given name is the first word and the family name is the
remaining words joined by spaces; "Jane Q. Public" yields given "Jane" and
family "Q. Public", and the single-token "Prince" yields given "Prince"
and empty family. -/
theorem author_name_splitting (aff : Option Element) :
    (∀ fullname : String,
      (author_record fullname aff).given = (reSplitWs fullname).headD ""
      ∧ (author_record fullname aff).family
          = " ".intercalate (reSplitWs fullname).tail)
    ∧ (∀ ws : List String, ws ≠ [] →
        (∀ w ∈ ws, w.data ≠ [] ∧ ∀ c ∈ w.data, isSpace c = false) →
        (author_record (" ".intercalate ws) aff).given = ws.headD ""
        ∧ (author_record (" ".intercalate ws) aff).family
            = " ".intercalate ws.tail)
    ∧ parse_meta_authors
        [{ tag := "meta",
           attrs := [("name", "citation_author"), ("content", "Jane Q. Public")] }]
      = some [{ given := "Jane", family := "Q. Public", affiliation := [] }]
    ∧ parse_meta_authors
        [{ tag := "meta",
           attrs := [("name", "citation_author"), ("content", "Prince")] }]
      = some [{ given := "Prince", family := "", affiliation := [] }] := by
  refine ⟨fun fullname => ⟨rfl, rfl⟩, ?_, rfl, rfl⟩
  intro ws hne hw
  constructor
  · show (reSplitWs (" ".intercalate ws)).headD "" = ws.headD ""
    rw [reSplitWs_intercalate ws hne hw]
  · show " ".intercalate (reSplitWs (" ".intercalate ws)).tail
        = " ".intercalate ws.tail
    rw [reSplitWs_intercalate ws hne hw]

/-- Witness for C6. -/
theorem author_name_splitting_witness :
    (author_record (" ".intercalate ["Jane", "Q.", "Public"]) none).given = "Jane"
    ∧ (author_record (" ".intercalate ["Jane", "Q.", "Public"]) none).family
        = "Q. Public" := by
  have h := (author_name_splitting none).2.1 ["Jane", "Q.", "Public"]
    (by decide) (by decide)
  exact ⟨h.1.trans (by decide), h.2.trans (by decide)⟩

/-! ## Claim C1: merge precedence across the fetch stages -/

/-- C1: when both the structured-data stage and the bibtex stage set the
same field, the bibtex value is the one present in the context data after
fetch returns (for the key "doi" this is guaranteed here when get_doi is
unimplemented, since the doi stage runs later); and whenever get_doi is
implemented, its value unconditionally overwrites any earlier value under
"doi". -/
theorem fetch_merge_precedence :
    (∀ (d d' : Downloader) (gd entry : List (String × String))
        (rest : List (List (String × String))) (url k v : String),
      d.get_data = some gd →
      d.get_bibtex_url = some url → url ≠ "" →
      d.bibtex_data = none →
      d.decode (d.session_get url) ≠ "" →
      d.bibtex_to_dict (d.decode (d.session_get url)) = entry :: rest →
      (entry.map Prod.fst).Nodup →
      dlookup k entry = some v →
      dlookup k gd ≠ none →
      (k = "doi" → d.get_doi = none) →
      fetch d = some d' →
      dlookup k d'.ctx.data = some v)
    ∧ (∀ (d d' : Downloader) (doi : String),
      d.get_doi = some doi → fetch d = some d' →
      dlookup "doi" d'.ctx.data = some doi) := by
  constructor
  · intro d d' gd entry rest url k v h1 h2 h3 h4 h5 h6 hnd hk _hkg hdoi h7
    have s1 : fetch_stage1 d
        = { d with ctx := { d.ctx with data := dictUpdate d.ctx.data gd } } := by
      unfold fetch_stage1
      rw [h1]
    have hurl : url.isEmpty = false := by
      rw [Bool.eq_false_iff]
      intro hh
      exact h3 ((String.isEmpty_iff url).mp hh)
    have hsE : (d.decode (d.session_get url)).isEmpty = false := by
      rw [Bool.eq_false_iff]
      intro hh
      exact h5 ((String.isEmpty_iff _).mp hh)
    have s2 : fetch_stage2 (fetch_stage1 d)
        = some { d with
            netLog := d.netLog ++ [url]
            bibtex_data := some (d.decode (d.session_get url))
            ctx := { d.ctx with
              data := dictUpdate (dictUpdate d.ctx.data gd) entry } } := by
      rw [s1]
      simp only [fetch_stage2, download_bibtex, sget, h2, hurl,
        Bool.false_eq_true, if_false, get_bibtex_data, truthyOS, hsE,
        Bool.not_false, if_true, Option.getD_some, h6]
    have h8 : fetch_stage4 (fetch_stage3 { d with
        netLog := d.netLog ++ [url]
        bibtex_data := some (d.decode (d.session_get url))
        ctx := { d.ctx with
          data := dictUpdate (dictUpdate d.ctx.data gd) entry } })
        = some d' := by
      rw [← h7]
      unfold fetch
      rw [s2]
    have hbase : dlookup k (dictUpdate (dictUpdate d.ctx.data gd) entry)
        = some v :=
      dlookup_dictUpdate_mem entry _ k v hnd hk
    rw [fetch_stage4_data _ d' h8]
    by_cases hkd : k = "doi"
    · have hgd : d.get_doi = none := hdoi hkd
      simp only [fetch_stage3, hgd]
      exact hbase
    · cases hgd : d.get_doi with
      | none =>
        simp only [fetch_stage3, hgd]
        exact hbase
      | some doi =>
        simp only [fetch_stage3, hgd]
        rw [dlookup_dictInsert_ne _ _ _ _ (fun hh => hkd hh.symm)]
        exact hbase
  · intro d d' doi hdoi h7
    cases h2 : fetch_stage2 (fetch_stage1 d) with
    | none =>
      unfold fetch at h7
      rw [h2] at h7
      exact Option.noConfusion h7
    | some dmid =>
      have h8 : fetch_stage4 (fetch_stage3 dmid) = some d' := by
        rw [← h7]
        unfold fetch
        rw [h2]
      have hdmid : dmid.get_doi = some doi := by
        rw [fetch_stage2_get_doi _ _ h2, fetch_stage1_get_doi]
        exact hdoi
      rw [fetch_stage4_data _ d' h8]
      simp only [fetch_stage3, hdmid]
      exact dlookup_dictInsert_self _ _ _

/-- Witness for C1: on a downloader where get_data sets title and doi,
bibtex sets title and doi, and get_doi is implemented, the final data holds
the bibtex title and the get_doi doi. -/
theorem fetch_merge_precedence_witness :
    dlookup "title" mergeD1.ctx.data = some "B"
    ∧ dlookup "doi" mergeD1.ctx.data = some "3" :=
  ⟨fetch_merge_precedence.1 mergeD mergeD1 [("title", "A"), ("doi", "1")]
      [("title", "B"), ("doi", "2")] [] "u" "title" "B" rfl rfl (by decide)
      rfl (by decide) rfl (by decide) (by decide) (by decide)
      (fun hh => absurd hh (by decide)) rfl,
   fetch_merge_precedence.2 mergeD mergeD1 "3" rfl rfl⟩

end Papis
